import Mathlib

/-!
# Verification of the content-curator ingestion pipeline

Shallow embedding of the content-curator skill
(`src/skills/content-curator-skill`): the idempotency ledger
(`is_video_processed` / `mark_processed`), the rate limiter, the
Bilibili transcript fetch with its retry loop, the duration
formatter/parser, the YouTube caption fallback chain, the rewrite
failure policy, and the Feishu table reconciliation rules.

Each definition is translated from the corresponding Python snippet in
`reference/api-details.md` or, where the module is only described (the
Feishu reconciliation logic of `feishu.py`), modelled from the
behaviour stated in `SKILL.md` / the design spec, with a doc comment
saying so.
-/

namespace Curator

/-! ## Idempotency ledger (`api-details.md`, 幂等性处理)

`processed.json` holds a JSON array.  `mark_processed` appends an
object `{"id": video_id, "processed_at": ...}`; `is_video_processed`
tests `video_id in processed`, i.e. Python equality of the query
string against each element of the array.  We model the array elements
as a small JSON value type: a string never equals an object. -/

/-- An element of the `processed.json` array: either a bare string or an
object `\x7b"id": ..., "processed_at": ...\x7d` as written by `mark_processed`. -/
inductive LedgerEntry where
  | jstr (s : String)
  | jrec (id : String) (processedAt : String)
deriving DecidableEq, Repr

/-- Python equality `video_id == element` between the query string and one
array element: a `str` equals a `str` with the same contents and never
equals a `dict`. -/
def entryEqStr (e : LedgerEntry) (v : String) : Bool :=
  match e with
  | .jstr s => s == v
  | .jrec _ _ => false

/-- `is_video_processed(video_id)`: load the array and test
`video_id in processed` (membership by Python equality). -/
def is_video_processed (v : String) (ledger : List LedgerEntry) : Bool :=
  ledger.any (fun e => entryEqStr e v)

/-- `mark_processed(video_id)`: load the array, append
`\x7b"id": video_id, "processed_at": now\x7d`, write it back. -/
def mark_processed (v : String) (t : String) (ledger : List LedgerEntry) :
    List LedgerEntry :=
  ledger ++ [.jrec v t]

/-- Number of `\x7bid, processed_at\x7d` records in the ledger carrying the
given video id. -/
def idCount (v : String) (ledger : List LedgerEntry) : Nat :=
  (ledger.filter (fun e =>
    match e with
    | .jstr _ => false
    | .jrec i _ => i == v)).length

/-! ## Rate limiter (`api-details.md`, Rate Limiting策略)

Timestamps are rationals; `time.sleep(d)` is modelled by the release
time `now + d`, and the `time.time()` re-read after the sleep by that
same release time. -/

/-- The `RateLimiter` object: `interval = 60 / calls_per_minute`,
`last_call` initially `0`. -/
structure RateLimiter where
  interval : ℚ
  last_call : ℚ
deriving DecidableEq, Repr

/-- `RateLimiter(calls_per_minute)`. -/
def RateLimiter.init (callsPerMinute : ℚ) : RateLimiter :=
  { interval := 60 / callsPerMinute, last_call := 0 }

/-- `wait()` called at clock time `now`: sleep `interval - elapsed` when
`elapsed < interval`, then store the post-sleep clock reading in
`last_call`.  Returns the release time together with the updated
limiter. -/
def RateLimiter.wait (rl : RateLimiter) (now : ℚ) : ℚ × RateLimiter :=
  let elapsed := now - rl.last_call
  let release := if elapsed < rl.interval then now + (rl.interval - elapsed) else now
  (release, { interval := rl.interval, last_call := release })

/-! ## Bilibili transcript fetch (`api-details.md`, Bibigpt.co API)

`fetch_bilibili_transcript` loops `for attempt in range(3)`.  Inside
the `try`, the HTTP status is checked (401, 429, other non-200), then
the JSON body `code` (success only on `0`), then the transcript field
(empty → error).  All of those raise plain `Exception`s.  The handlers
are: `requests.exceptions.Timeout` → sleep `2 ** attempt` and retry
(raise on the last attempt), `requests.exceptions.ConnectionError` →
raise, `Exception` → re-raise.  So only timeouts are retried. -/

/-- One HTTP response from the Bibigpt endpoint: HTTP status, JSON body
`code`, and the transcript field (`""` models both a missing and an
empty transcript, since Python tests `if not transcript`). -/
structure BResponse where
  status : Nat
  code : Int
  transcript : String
deriving DecidableEq, Repr

/-- The distinct `Exception`s raised inside `fetch_bilibili_transcript`,
by message. -/
inductive FetchErr where
  | auth                 -- "API认证失败 - 请检查API密钥" (HTTP 401)
  | rateLimited          -- "API限流 - 请稍后再试" (HTTP 429)
  | httpStatus (s : Nat) -- "API错误 - 状态码: ..." (other HTTP != 200)
  | apiCode (c : Int)    -- "API返回错误: ..." (JSON code != 0)
  | emptyTranscript      -- "获取到空字幕内容"
  | timeoutMax           -- "请求超时，已达到最大重试次数"
  | connection           -- "网络连接错误"
deriving DecidableEq, Repr

/-- The body of the `try` block for one response: HTTP status checks,
JSON `code` check, empty-transcript check, else success. -/
def checkResponse (r : BResponse) : Except FetchErr String :=
  if r.status = 401 then .error .auth
  else if r.status = 429 then .error .rateLimited
  else if r.status ≠ 200 then .error (.httpStatus r.status)
  else if r.code ≠ 0 then .error (.apiCode r.code)
  else if r.transcript = "" then .error .emptyTranscript
  else .ok r.transcript

/-- What one iteration of the retry loop observes from `requests.get`:
a response, a `Timeout`, or a `ConnectionError`. -/
inductive AttemptOutcome where
  | resp (r : BResponse)
  | timeout
  | connError
deriving Repr

/-- Result of a run of `fetch_bilibili_transcript`: the returned value
or raised error (`none` models the unreachable `return None` after the
loop), the list of backoff sleeps issued (in seconds), and the number
of attempts made. -/
structure FetchRun where
  result : Option (Except FetchErr String)
  sleeps : List Nat
  attempts : Nat
deriving Repr

/-- The `for attempt in range(max_retries)` loop: `remaining` is the
number of iterations left, `attempt` the current index.  A response is
classified by `checkResponse` and the loop stops (success returns; any
raised `Exception` falls to the bare `except Exception: raise e`).  A
`Timeout` on the last attempt raises; earlier it sleeps `2 ** attempt`
seconds and continues.  A `ConnectionError` raises at once. -/
def fetchLoop (outcomes : Nat → AttemptOutcome) :
    Nat → Nat → List Nat → FetchRun
  | 0, attempt, sleeps => ⟨none, sleeps, attempt⟩
  | remaining + 1, attempt, sleeps =>
    match outcomes attempt with
    | .resp r => ⟨some (checkResponse r), sleeps, attempt + 1⟩
    | .timeout =>
      if remaining = 0 then ⟨some (.error .timeoutMax), sleeps, attempt + 1⟩
      else fetchLoop outcomes remaining (attempt + 1) (sleeps ++ [2 ^ attempt])
    | .connError => ⟨some (.error .connection), sleeps, attempt + 1⟩

/-- `fetch_bilibili_transcript` with `max_retries = 3`, driven by the
per-attempt outcomes of `requests.get`. -/
def fetch_bilibili_transcript (outcomes : Nat → AttemptOutcome) : FetchRun :=
  fetchLoop outcomes 3 0 []

/-- `retry_with_backoff(func, max_retries=3, base_delay=1)`
(`api-details.md`, 错误重试策略): any exception is retried; on the last
attempt it is re-raised, otherwise the loop sleeps
`base_delay * (2 ** attempt)` and tries again.  `tries : Nat → Except E A`
gives the outcome of each invocation of `func`. -/
def retryLoop {E A : Type} (tries : Nat → Except E A) (baseDelay : Nat) :
    Nat → Nat → List Nat → Option (Except E A) × List Nat
  | 0, _, sleeps => (none, sleeps)
  | remaining + 1, attempt, sleeps =>
    match tries attempt with
    | .ok a => (some (.ok a), sleeps)
    | .error e =>
      if remaining = 0 then (some (.error e), sleeps)
      else retryLoop tries baseDelay remaining (attempt + 1)
        (sleeps ++ [baseDelay * 2 ^ attempt])

/-- `retry_with_backoff` with the default `max_retries = 3`,
`base_delay = 1`: result plus the sleeps issued. -/
def retry_with_backoff {E A : Type} (tries : Nat → Except E A) :
    Option (Except E A) × List Nat :=
  retryLoop tries 1 3 0 []

/-! ## Duration utilities (`api-details.md`, 工具函数)

`format_duration` renders `f"\x7bh:02d\x7d:\x7bm:02d\x7d:\x7bs:02d\x7d"`;
`parse_duration` handles the `PT...` ISO branch via the external
`isodate` library (kept abstract as a parameter) and otherwise splits
on `:` and converts each part with `int(...)`.  Strings are modelled
as lists of characters. -/

/-- The decimal digit character for `d < 10` (Python decimal rendering). -/
def digitChar (d : Nat) : Char :=
  match d with
  | 0 => '0' | 1 => '1' | 2 => '2' | 3 => '3' | 4 => '4'
  | 5 => '5' | 6 => '6' | 7 => '7' | 8 => '8' | _ => '9'

/-- The numeric value of a decimal digit character, `none` on any other
character (Python `int(...)` raises there). -/
def digitVal (c : Char) : Option Nat :=
  if c = '0' then some 0 else if c = '1' then some 1
  else if c = '2' then some 2 else if c = '3' then some 3
  else if c = '4' then some 4 else if c = '5' then some 5
  else if c = '6' then some 6 else if c = '7' then some 7
  else if c = '8' then some 8 else if c = '9' then some 9
  else none

/-- Decimal digits of `n`, most significant first, with enough fuel. -/
def natDigitsAux : Nat → Nat → List Char
  | 0, _ => []
  | fuel + 1, n =>
    if n < 10 then [digitChar n]
    else natDigitsAux fuel (n / 10) ++ [digitChar (n % 10)]

/-- Python's decimal rendering `str(n)` of a natural number. -/
def natDigits (n : Nat) : List Char := natDigitsAux (n + 1) n

/-- Python's `f"\x7bn:02d\x7d"`: zero-pad to width 2 (numbers of three or
more digits are rendered in full). -/
def pad2 (n : Nat) : List Char :=
  if n < 10 then '0' :: natDigits n else natDigits n

/-- `format_duration(seconds)`: `HH:MM:SS` with each component
zero-padded to two digits. -/
def format_duration (seconds : Nat) : List Char :=
  pad2 (seconds / 3600) ++ ':' :: pad2 (seconds % 3600 / 60) ++ ':' :: pad2 (seconds % 60)

/-- Python `int(...)` over a digit string: accumulate left to right,
failing on any non-digit character. -/
def parseNatAux : Nat → List Char → Option Nat
  | acc, [] => some acc
  | acc, c :: cs =>
    match digitVal c with
    | some d => parseNatAux (acc * 10 + d) cs
    | none => none

/-- Python `int(s)` on a non-empty all-digit string (an empty string
raises). -/
def parseNat (cs : List Char) : Option Nat :=
  match cs with
  | [] => none
  | _ => parseNatAux 0 cs

/-- Python `str.split(':')`. -/
def splitOnColon : List Char → List (List Char)
  | [] => [[]]
  | c :: cs =>
    if c = ':' then [] :: splitOnColon cs
    else
      match splitOnColon cs with
      | [] => [[c]]
      | p :: ps => (c :: p) :: ps

/-- `parse_duration(duration_str)`: the `PT...` prefix goes to the
external `isodate` parser (abstract parameter `isoParse`); otherwise
split on `:` into `HH:MM:SS` or `MM:SS` and combine; anything else
(or an `int(...)` failure) returns `None` via the `except` clause. -/
def parse_duration (isoParse : List Char → Option Nat) (s : List Char) :
    Option Nat :=
  if s.take 2 = ['P', 'T'] then isoParse s
  else
    match splitOnColon s with
    | [hs, ms, ss] => do
      let h ← parseNat hs
      let m ← parseNat ms
      let sec ← parseNat ss
      some (h * 3600 + m * 60 + sec)
    | [ms, ss] => do
      let m ← parseNat ms
      let sec ← parseNat ss
      some (m * 60 + sec)
    | _ => none

/-! ## Content rewriting and markdown persistence (`api-details.md`,
Claude API / 文件操作; failure policy from the SKILL.md error table) -/

/-- Video metadata used by `rewrite_content` and `save_markdown_file`. -/
structure VideoInfo where
  id : String
  title : String
  duration : Nat
  thumbnail_url : String
  published_at : String
  channel_name : String
  platform : String
deriving DecidableEq, Repr

/-- Outcome of the one `client.messages.create` call inside
`rewrite_content`. -/
inductive ClaudeOutcome where
  | ok (text : String)
  | authFail
  | rateLimit
  | apiErr (msg : String)
deriving DecidableEq, Repr

/-- `ClaudeOutcome` is not a success. -/
def ClaudeOutcome.isFailure : ClaudeOutcome → Bool
  | .ok _ => false
  | _ => true

/-- `rewrite_content`: returns the response text on success and raises
a wrapped exception on `AuthenticationError`, `RateLimitError` or
`APIError`. -/
def rewrite_content (outcome : ClaudeOutcome) : Except String String :=
  match outcome with
  | .ok t => .ok t
  | .authFail => .error "Claude API认证失败"
  | .rateLimit => .error "Claude API限流"
  | .apiErr m => .error ("Claude API错误: " ++ m)

/-- The caller's handling of a rewrite failure, per the SKILL.md error
table ("Claude API失败 → 内容为空", logged as ERROR, run continues):
the RewrittenDocument becomes the empty string. -/
def contentAfterRewrite (r : Except String String) : String :=
  match r with
  | .ok t => t
  | .error _ => ""

/-- The YAML header and leading body of the markdown artifact built by
`save_markdown_file`, up to and including the `## 内容摘要` heading.
`escapeYaml` abstracts the `escape_yaml` helper applied to the title. -/
def mdHead (escapeYaml : String → String) (v : VideoInfo) : String :=
  "---\nvideo_id: \"" ++ v.id ++ "\"\ntitle: \"" ++ escapeYaml v.title ++
  "\"\nduration: " ++ toString v.duration ++ "\nthumbnail_url: \"" ++
  v.thumbnail_url ++ "\"\npublished_at: \"" ++ v.published_at ++
  "\"\nchannel: \"" ++ v.channel_name ++ "\"\nplatform: \"" ++ v.platform ++
  "\"\n---\n\n# " ++ v.title ++ "\n\n## 内容摘要\n\n"

/-- The text between the summary section and the raw transcript:
`## 原始字幕` heading and the opening code fence. -/
def mdMid : String := "\n\n## 原始字幕\n\n```\n"

/-- The closing code fence of the markdown artifact. -/
def mdTail : String := "\n```\n"

/-- The placeholder summary `content or "_改写失败，见原始字幕_"` falls
back to when `content` is empty. -/
def rewriteFailedNote : String := "_改写失败，见原始字幕_"

/-- The full markdown content written by `save_markdown_file`: header,
summary (or the placeholder when `content` is falsy), and the raw
transcript verbatim inside a fenced block. -/
def save_markdown_file (escapeYaml : String → String)
    (content transcript : String) (v : VideoInfo) : String :=
  mdHead escapeYaml v ++
  (if content = "" then rewriteFailedNote else content) ++
  mdMid ++ transcript ++ mdTail

/-- One video's pass through rewrite + persistence: the artifact always
gets written, with the transcript verbatim and the summary empty on
rewrite failure. -/
def processVideo (escapeYaml : String → String)
    (x : VideoInfo × String × ClaudeOutcome) : String :=
  save_markdown_file escapeYaml
    (contentAfterRewrite (rewrite_content x.2.2)) x.2.1 x.1

/-- The per-video loop of the run, per SKILL.md ("Log & Continue",
处理完全部): each video is processed independently, in order. -/
def processRun (escapeYaml : String → String)
    (xs : List (VideoInfo × String × ClaudeOutcome)) : List String :=
  xs.map (processVideo escapeYaml)

/-! ## YouTube caption fallback chain (`api-details.md`,
youtube-transcript-api Usage)

The snippet loops `for lang in langs: transcript_list.find_transcript([lang])`
breaking on the first hit, then falls back to
`find_generated_transcript(langs)`, and raises "No transcript found"
(a skip) when both fail.  The library's two lookup functions are
modelled from the snippet's own priority note (人工字幕 > 自动字幕)
and spec §4.2: `find_transcript` matches manually created caption
tracks, `find_generated_transcript` matches auto-generated ones. -/

/-- One caption track of a video: language tag and whether it is
auto-generated. -/
structure CaptionTrack where
  lang : String
  generated : Bool
deriving DecidableEq, Repr

/-- Modelled from the spec: `TranscriptListFetcher.find_transcript([lang])`
of the external `youtube-transcript-api`, restricted per the snippet's
priority comment to manually authored tracks — the first manual track
with the requested language. -/
def find_transcript (tracks : List CaptionTrack) (lang : String) :
    Option CaptionTrack :=
  tracks.find? (fun t => !t.generated && t.lang == lang)

/-- Modelled from the spec: `find_generated_transcript(langs)` of the
external library — languages tried in order among auto-generated
tracks. -/
def find_generated_transcript (tracks : List CaptionTrack) :
    List String → Option CaptionTrack
  | [] => none
  | l :: ls =>
    match tracks.find? (fun t => t.generated && t.lang == l) with
    | some t => some t
    | none => find_generated_transcript tracks ls

/-- The snippet's `for lang in langs` loop over `find_transcript`,
breaking at the first success. -/
def findManual (tracks : List CaptionTrack) : List String → Option CaptionTrack
  | [] => none
  | l :: ls =>
    match find_transcript tracks l with
    | some t => some t
    | none => findManual tracks ls

/-- Terminal transcript errors of the fallback chain. -/
inductive YTError where
  | disabled
deriving DecidableEq, Repr

/-- The whole acquisition: manual tracks by language preference first,
then auto-generated tracks for the same ordered list, else the
`TranscriptError.Disabled` skip ("No transcript found"). -/
def get_transcript_A (tracks : List CaptionTrack) (langs : List String) :
    Except YTError CaptionTrack :=
  match findManual tracks langs with
  | some t => .ok t
  | none =>
    match find_generated_transcript tracks langs with
    | some t => .ok t
    | none => .error .disabled

/-! ## Feishu table reconciliation

Modelled from the spec: the deciding code (`feishu.py`'s
`_update_record` / `_extract_golden_quotes`) is not under `src/`; this
follows SKILL.md 87–89 (智能更新逻辑: 只更新空字段，不覆盖已有内容;
金句特殊处理：检测到无序号时自动更新为带序号格式) and spec §4.6,
with the numbering heuristic the spec documents ("does not start with
a digit followed by a period"). -/

/-- An existing row of the external store (all value cells as text;
the source link is the unique key and is never part of a merge plan). -/
structure ExternalRecord where
  sourceLink : String
  platform : String
  title : String
  author : String
  cover : String
  uploadTime : String
  fullContent : String
  summary : String
  quotes : String
deriving DecidableEq, Repr

/-- The locally produced record for one video; the golden quotes are
carried as the extracted list of quote lines, numbered on rendering. -/
structure LocalRecord where
  sourceLink : String
  platform : String
  title : String
  author : String
  cover : String
  uploadTime : String
  fullContent : String
  summary : String
  quotesList : List String
deriving DecidableEq, Repr

/-- The updatable (non-key) fields of an `ExternalRecord`. -/
inductive FieldId where
  | platform | title | author | cover | uploadTime | fullContent | summary | quotes
deriving DecidableEq, Repr

/-- All updatable fields, in column order. -/
def allFields : List FieldId :=
  [.platform, .title, .author, .cover, .uploadTime, .fullContent, .summary, .quotes]

/-- Read one field of an `ExternalRecord`. -/
def getField (r : ExternalRecord) : FieldId → String
  | .platform => r.platform
  | .title => r.title
  | .author => r.author
  | .cover => r.cover
  | .uploadTime => r.uploadTime
  | .fullContent => r.fullContent
  | .summary => r.summary
  | .quotes => r.quotes

/-- Write one field of an `ExternalRecord`. -/
def setField (r : ExternalRecord) (f : FieldId) (v : String) : ExternalRecord :=
  match f with
  | .platform => { r with platform := v }
  | .title => { r with title := v }
  | .author => { r with author := v }
  | .cover => { r with cover := v }
  | .uploadTime => { r with uploadTime := v }
  | .fullContent => { r with fullContent := v }
  | .summary => { r with summary := v }
  | .quotes => { r with quotes := v }

/-- Number the extracted quote lines `1. ...`, `2. ...` starting at the
given ordinal. -/
def renumberFrom : Nat → List String → List String
  | _, [] => []
  | i, q :: qs => (toString i ++ ". " ++ q) :: renumberFrom (i + 1) qs

/-- The freshly numbered golden-quotes text derived from the local
record (带序号 1. 2. 3...). -/
def renumber (qs : List String) : String :=
  String.intercalate "\n" (renumberFrom 1 qs)

/-- The value the merge plan would write for one field. -/
def localValue (l : LocalRecord) : FieldId → String
  | .platform => l.platform
  | .title => l.title
  | .author => l.author
  | .cover => l.cover
  | .uploadTime => l.uploadTime
  | .fullContent => l.fullContent
  | .summary => l.summary
  | .quotes => renumber l.quotesList

/-- The documented numbering heuristic: the text starts with a digit
followed by a period (`"1."`-style ordinal). -/
def hasNumbering (s : String) : Bool :=
  match s.data with
  | c₁ :: c₂ :: _ => c₁.isDigit && c₂ = '.'
  | _ => false

/-- Modelled from the spec: whether `_update_record` includes a field in
the merge plan — empty fields always; the quotes field additionally
when its existing value lacks the numbering pattern. -/
def planIncludes (ext : ExternalRecord) (f : FieldId) : Bool :=
  match f with
  | .quotes => getField ext .quotes == "" || !hasNumbering (getField ext .quotes)
  | _ => getField ext f == ""

/-- The `FieldMergePlan` for one reconciliation: the planned fields, in
column order, with the values to write. -/
def computePlan (ext : ExternalRecord) (loc : LocalRecord) :
    List (FieldId × String) :=
  (allFields.filter (planIncludes ext)).map (fun f => (f, localValue loc f))

/-- Apply a merge plan as the single batched update call: set exactly
the planned fields. -/
def applyPlan (r : ExternalRecord) (plan : List (FieldId × String)) :
    ExternalRecord :=
  plan.foldl (fun r p => setField r p.1 p.2) r

/-- Reconcile a local record against an existing external row: compute
the merge plan and apply it. -/
def reconcile (ext : ExternalRecord) (loc : LocalRecord) : ExternalRecord :=
  applyPlan ext (computePlan ext loc)

/-! ## Theorems -/

/-- C2: the claim says `mark_processed(v)` followed by
`is_video_processed(v)` returns `true`.  The code violates this:
`mark_processed` appends an `\x7bid, processed_at\x7d` object, while
`is_video_processed` tests `video_id in processed`, comparing the bare
string against each element — a string never equals an object, so the
check returns `false`, and marking never changes what the check sees. -/
theorem c2_mark_then_check_is_false :
    is_video_processed "abc123"
      (mark_processed "abc123" "2024-01-15T10:00:00" []) = false ∧
    ∀ (v t : String) (ledger : List LedgerEntry),
      is_video_processed v (mark_processed v t ledger) =
        is_video_processed v ledger := by
  refine ⟨rfl, ?_⟩
  intro v t ledger
  simp [is_video_processed, mark_processed, entryEqStr]

/-- C6 counterexample: marking the same id twice from the empty ledger
yields two `\x7bid, processed_at\x7d` records for it — `mark_processed`
does not preserve the at-most-once property when the id is already
present. -/
theorem c6_counterexample :
    ¬ idCount "a" (mark_processed "a" "t2" (mark_processed "a" "t1" [])) ≤ 1 := by
  decide

/-- Marking appends exactly one record for the marked id and none for
any other id. -/
theorem idCount_mark (v a t : String) (ledger : List LedgerEntry) :
    idCount v (mark_processed a t ledger) =
      idCount v ledger + (if a = v then 1 else 0) := by
  simp only [idCount, mark_processed, List.filter_append, List.length_append]
  by_cases h : a = v <;> simp [h]

/-- C6 (amended): `mark_processed` appends unconditionally, so a video
id occurs at most once among the ledger's records only along runs of
`mark_processed` calls (from the empty ledger) whose marked ids are
pairwise distinct; marking an id that is already present produces a
duplicate. -/
theorem c6_amended_at_most_once (ops : List (String × String))
    (h : (ops.map Prod.fst).Nodup) (v : String) :
    idCount v (ops.foldl (fun l p => mark_processed p.1 p.2 l) []) ≤ 1 := by
  have key : ∀ (ops : List (String × String)) (l₀ : List LedgerEntry),
      idCount v (ops.foldl (fun l p => mark_processed p.1 p.2 l) l₀) =
        idCount v l₀ + (ops.map Prod.fst).count v := by
    intro ops
    induction ops with
    | nil => intro l₀; simp
    | cons p ops ih =>
      intro l₀
      simp only [List.foldl_cons, ih, idCount_mark, List.map_cons]
      rcases eq_or_ne p.1 v with hv | hv
      · simp [hv, List.count_cons]
        omega
      · simp [hv, List.count_cons]
  have := key ops []
  simp only [this]
  have hcount := List.nodup_iff_count_le_one.mp h v
  simpa [idCount] using Nat.add_le_add_left hcount 0 |>.trans (by omega)

/-- Witness for C6 (amended) at a concrete run with distinct ids. -/
theorem c6_amended_witness :
    (([("a", "t1"), ("b", "t2")] : List (String × String)).map Prod.fst).Nodup ∧
    idCount "a" (([("a", "t1"), ("b", "t2")] : List (String × String)).foldl
      (fun l p => mark_processed p.1 p.2 l) []) ≤ 1 :=
  ⟨by decide, c6_amended_at_most_once [("a", "t1"), ("b", "t2")] (by decide) "a"⟩

/-- Any single `wait()` releases no earlier than `last_call + interval`
and stores the release time. -/
theorem wait_release (rl : RateLimiter) (now : ℚ) :
    (rl.wait now).1 ≥ rl.last_call + rl.interval ∧
    (rl.wait now).2.last_call = (rl.wait now).1 ∧
    (rl.wait now).2.interval = rl.interval := by
  simp only [RateLimiter.wait]
  split <;> constructor <;> try constructor
  all_goals simp_all
  all_goals linarith

/-- C7: a `RateLimiter` built from `calls_per_minute` uses
`interval = 60 / calls_per_minute`; each `wait()` blocks until at
least `interval` after the instance's previous release and records the
new release time in the instance's own state, so two consecutive
releases of the same instance are at least `interval` apart. -/
theorem c7_rate_limiter_spacing (cpm : ℚ) (rl : RateLimiter) (now₁ now₂ : ℚ) :
    (RateLimiter.init cpm).interval = 60 / cpm ∧
    (rl.wait now₁).1 ≥ rl.last_call + rl.interval ∧
    (rl.wait now₁).2.last_call = (rl.wait now₁).1 ∧
    ((rl.wait now₁).2.wait now₂).1 ≥ (rl.wait now₁).1 + rl.interval := by
  obtain ⟨h₁, h₂, h₃⟩ := wait_release rl now₁
  obtain ⟨g₁, _, _⟩ := wait_release (rl.wait now₁).2 now₂
  refine ⟨rfl, h₁, h₂, ?_⟩
  calc ((rl.wait now₁).2.wait now₂).1
      ≥ (rl.wait now₁).2.last_call + (rl.wait now₁).2.interval := g₁
    _ = (rl.wait now₁).1 + rl.interval := by rw [h₂, h₃]

/-- C3: the claim says HTTP 429, timeouts and connection errors are all
retried up to 3 attempts with 1 s and 2 s backoff sleeps.  In
`fetch_bilibili_transcript` only timeouts are: an HTTP 429 response and
a `ConnectionError` both raise on the first attempt with no sleeps
(the generic `retry_with_backoff` helper does retry every error with
1 s, 2 s delays, but `fetch_bilibili_transcript` does not use it). -/
theorem c3_429_and_connection_not_retried :
    (fetch_bilibili_transcript (fun _ => .resp ⟨429, 0, "tx"⟩)).result =
        some (.error .rateLimited) ∧
    (fetch_bilibili_transcript (fun _ => .resp ⟨429, 0, "tx"⟩)).sleeps = [] ∧
    (fetch_bilibili_transcript (fun _ => .resp ⟨429, 0, "tx"⟩)).attempts = 1 ∧
    (fetch_bilibili_transcript (fun _ => .connError)).result =
        some (.error .connection) ∧
    (fetch_bilibili_transcript (fun _ => .connError)).sleeps = [] ∧
    (fetch_bilibili_transcript (fun _ => .connError)).attempts = 1 ∧
    (fetch_bilibili_transcript (fun _ => .timeout)).result =
        some (.error .timeoutMax) ∧
    (fetch_bilibili_transcript (fun _ => .timeout)).sleeps = [1, 2] ∧
    (fetch_bilibili_transcript (fun _ => .timeout)).attempts = 3 ∧
    (retry_with_backoff (fun _ => (.error 0 : Except Nat Nat))).2 = [1, 2] := by
  refine ⟨rfl, rfl, rfl, rfl, rfl, rfl, rfl, rfl, rfl, rfl⟩

/-- C5: a Bibigpt response is accepted only when the JSON body code is
`0` (with HTTP 200 and a non-empty transcript); HTTP 401 yields the
authentication error, HTTP 429 the rate-limited error, any other
non-success status or a non-zero body code the generic API errors, and
an otherwise successful response with an empty transcript yields the
empty-transcript error instead of success. -/
theorem c5_response_validation (r : BResponse) :
    ((∃ t, checkResponse r = .ok t) ↔
      r.status = 200 ∧ r.code = 0 ∧ r.transcript ≠ "") ∧
    (r.status = 401 → checkResponse r = .error .auth) ∧
    (r.status = 429 → checkResponse r = .error .rateLimited) ∧
    (r.status ≠ 200 → r.status ≠ 401 → r.status ≠ 429 →
      checkResponse r = .error (.httpStatus r.status)) ∧
    (r.status = 200 → r.code ≠ 0 →
      checkResponse r = .error (.apiCode r.code)) ∧
    (r.status = 200 → r.code = 0 → r.transcript = "" →
      checkResponse r = .error .emptyTranscript) := by
  obtain ⟨s, c, tx⟩ := r
  simp only [checkResponse]
  split_ifs with h1 h2 h3 h4 h5 <;> simp_all

/-- Witness for C5: an HTTP 401 response is classified as the
authentication error, and an empty transcript under HTTP 200 / code 0
is classified as the empty-transcript error. -/
theorem c5_witness :
    checkResponse ⟨401, 0, "x"⟩ = .error .auth ∧
    checkResponse ⟨200, 0, ""⟩ = .error .emptyTranscript :=
  ⟨(c5_response_validation ⟨401, 0, "x"⟩).2.1 rfl,
   (c5_response_validation ⟨200, 0, ""⟩).2.2.2.2.2 rfl rfl rfl⟩

/-- C9: any failure of the generative rewrite call (auth, rate limit,
provider error) leaves the RewrittenDocument empty and is non-fatal:
the saved markdown artifact still contains the raw transcript verbatim
together with the placeholder summary, and the run processes the
remaining videos unchanged. -/
theorem c9_rewrite_failure_nonfatal (escapeYaml : String → String)
    (v : VideoInfo) (transcript : String) (outcome : ClaudeOutcome)
    (h : outcome.isFailure = true) :
    contentAfterRewrite (rewrite_content outcome) = "" ∧
    (∃ p q, processVideo escapeYaml (v, transcript, outcome) =
      p ++ transcript ++ q) ∧
    (∃ p q, processVideo escapeYaml (v, transcript, outcome) =
      p ++ rewriteFailedNote ++ q) ∧
    ∀ rest, processRun escapeYaml ((v, transcript, outcome) :: rest) =
      processVideo escapeYaml (v, transcript, outcome) ::
        processRun escapeYaml rest := by
  have hempty : contentAfterRewrite (rewrite_content outcome) = "" := by
    cases outcome <;> simp_all [ClaudeOutcome.isFailure, rewrite_content,
      contentAfterRewrite]
  refine ⟨hempty, ?_, ?_, ?_⟩
  · refine ⟨mdHead escapeYaml v ++ rewriteFailedNote ++ mdMid, mdTail, ?_⟩
    simp [processVideo, save_markdown_file, hempty, String.append_assoc]
  · refine ⟨mdHead escapeYaml v,
      mdMid ++ transcript ++ mdTail, ?_⟩
    simp [processVideo, save_markdown_file, hempty, String.append_assoc]
  · intro rest
    simp [processRun]

/-- Witness for C9: a rate-limit failure of the rewrite call yields an
empty RewrittenDocument, and the artifact for a concrete video still
carries the transcript. -/
theorem c9_witness :
    ClaudeOutcome.isFailure .rateLimit = true ∧
    contentAfterRewrite (rewrite_content .rateLimit) = "" ∧
    ∃ p q, processVideo id (⟨"v1", "标题", 60, "u", "2024-01-15", "c", "youtube"⟩,
      "原始字幕文本", .rateLimit) = p ++ "原始字幕文本" ++ q :=
  ⟨rfl,
   (c9_rewrite_failure_nonfatal id ⟨"v1", "标题", 60, "u", "2024-01-15", "c", "youtube"⟩
     "原始字幕文本" .rateLimit rfl).1,
   (c9_rewrite_failure_nonfatal id ⟨"v1", "标题", 60, "u", "2024-01-15", "c", "youtube"⟩
     "原始字幕文本" .rateLimit rfl).2.1⟩

/-- `find_transcript` returns only manually authored tracks. -/
theorem find_transcript_manual {tracks : List CaptionTrack} {l : String}
    {t : CaptionTrack} (h : find_transcript tracks l = some t) :
    t.generated = false := by
  have := List.find?_some h
  simp only [Bool.and_eq_true, Bool.not_eq_true'] at this
  exact this.1

/-- `find_generated_transcript` returns only auto-generated tracks. -/
theorem find_generated_transcript_generated {tracks : List CaptionTrack}
    {t : CaptionTrack} :
    ∀ {langs : List String},
      find_generated_transcript tracks langs = some t → t.generated = true := by
  intro langs
  induction langs with
  | nil => intro h; simp [find_generated_transcript] at h
  | cons l ls ih =>
    intro h
    simp only [find_generated_transcript] at h
    rcases hf : tracks.find? (fun t => t.generated && t.lang == l) with _ | t'
    · rw [hf] at h; exact ih h
    · rw [hf] at h
      cases h
      have := List.find?_some hf
      simp only [Bool.and_eq_true] at this
      exact this.1

/-- The manual pass returns only manually authored tracks. -/
theorem findManual_manual {tracks : List CaptionTrack} {t : CaptionTrack} :
    ∀ {langs : List String}, findManual tracks langs = some t →
      t.generated = false := by
  intro langs
  induction langs with
  | nil => intro h; simp [findManual] at h
  | cons l ls ih =>
    intro h
    simp only [findManual] at h
    rcases hf : find_transcript tracks l with _ | t'
    · rw [hf] at h; exact ih h
    · rw [hf] at h; cases h; exact find_transcript_manual hf

/-- If some preferred language has a manual track, the manual pass
succeeds. -/
theorem findManual_isSome {tracks : List CaptionTrack} :
    ∀ {langs : List String}, (∃ l ∈ langs, (find_transcript tracks l).isSome) →
      (findManual tracks langs).isSome := by
  intro langs
  induction langs with
  | nil => rintro ⟨l, hl, _⟩; simp at hl
  | cons l ls ih =>
    rintro ⟨l', hl', hsome⟩
    simp only [findManual]
    rcases hf : find_transcript tracks l with _ | t
    · rcases List.mem_cons.mp hl' with rfl | hmem
      · rw [hf] at hsome; simp at hsome
      · exact ih ⟨l', hmem, hsome⟩
    · simp

/-- If the manual pass fails, no preferred language has a manual track. -/
theorem findManual_none {tracks : List CaptionTrack} :
    ∀ {langs : List String}, findManual tracks langs = none →
      ∀ l ∈ langs, find_transcript tracks l = none := by
  intro langs
  induction langs with
  | nil => intro _ l hl; simp at hl
  | cons l₀ ls ih =>
    intro h l hl
    simp only [findManual] at h
    rcases hf : find_transcript tracks l₀ with _ | t
    · rw [hf] at h
      rcases List.mem_cons.mp hl with rfl | hmem
      · exact hf
      · exact ih h l hmem
    · rw [hf] at h; cases h

/-- The manual pass picks the first language of the preference list
having a manual track. -/
theorem findManual_first {tracks : List CaptionTrack} {t : CaptionTrack} :
    ∀ {langs : List String}, findManual tracks langs = some t →
      ∃ i l, langs.get? i = some l ∧ find_transcript tracks l = some t ∧
        ∀ j, j < i → ∀ lj, langs.get? j = some lj →
          find_transcript tracks lj = none := by
  intro langs
  induction langs with
  | nil => intro h; simp [findManual] at h
  | cons l₀ ls ih =>
    intro h
    simp only [findManual] at h
    rcases hf : find_transcript tracks l₀ with _ | t'
    · rw [hf] at h
      obtain ⟨i, l, hget, hfind, hbefore⟩ := ih h
      refine ⟨i + 1, l, by simpa using hget, hfind, ?_⟩
      intro j hj lj hgetj
      match j with
      | 0 => simp at hgetj; subst hgetj; exact hf
      | k + 1 =>
        simp only [List.get?] at hgetj
        exact hbefore k (by omega) lj hgetj
    · rw [hf] at h
      cases h
      exact ⟨0, l₀, rfl, hf, by omega⟩

/-- With no caption tracks at all, both passes fail. -/
theorem fallback_empty_tracks (langs : List String) :
    findManual [] langs = none ∧ find_generated_transcript [] langs = none := by
  induction langs with
  | nil => simp [findManual, find_generated_transcript]
  | cons l ls ih =>
    simpa [findManual, find_generated_transcript, find_transcript,
      List.find?] using ih

/-- C8: transcript acquisition tries the ordered language-preference
list first among manually authored caption tracks (the first language
with a manual track wins); auto-generated tracks are consulted only
when no preferred language has a manual track; and with no caption
tracks at all the result is the `Disabled` skip, not a crash. -/
theorem c8_caption_fallback (tracks : List CaptionTrack) (langs : List String) :
    ((∃ l ∈ langs, (find_transcript tracks l).isSome) →
      ∃ t, get_transcript_A tracks langs = .ok t ∧ t.generated = false) ∧
    (∀ t, get_transcript_A tracks langs = .ok t → t.generated = false →
      ∃ i l, langs.get? i = some l ∧ find_transcript tracks l = some t ∧
        ∀ j, j < i → ∀ lj, langs.get? j = some lj →
          find_transcript tracks lj = none) ∧
    (∀ t, get_transcript_A tracks langs = .ok t → t.generated = true →
      ∀ l ∈ langs, find_transcript tracks l = none) ∧
    (tracks = [] → get_transcript_A tracks langs = .error .disabled) := by
  refine ⟨?_, ?_, ?_, ?_⟩
  · intro hex
    have hsome := findManual_isSome hex
    rcases hm : findManual tracks langs with _ | t
    · rw [hm] at hsome; simp at hsome
    · exact ⟨t, by simp [get_transcript_A, hm], findManual_manual hm⟩
  · intro t hok hman
    rcases hm : findManual tracks langs with _ | t'
    · rcases hg : find_generated_transcript tracks langs with _ | t''
      · simp [get_transcript_A, hm, hg] at hok
      · simp [get_transcript_A, hm, hg] at hok
        subst hok
        rw [find_generated_transcript_generated hg] at hman
        cases hman
    · simp [get_transcript_A, hm] at hok
      subst hok
      exact findManual_first hm
  · intro t hok hgen
    rcases hm : findManual tracks langs with _ | t'
    · exact findManual_none hm
    · simp [get_transcript_A, hm] at hok
      subst hok
      rw [findManual_manual hm] at hgen
      cases hgen
  · rintro rfl
    obtain ⟨h₁, h₂⟩ := fallback_empty_tracks langs
    simp [get_transcript_A, h₁, h₂]

/-- Witness for C8: with a generated en track and a manual en track,
preferences `["zh", "en"]` select the manual en track — and the manual
pass reports it as the first matching language; with no tracks at all
the result is the `Disabled` skip. -/
theorem c8_witness :
    (∃ i l, (["zh", "en"] : List String).get? i = some l ∧
      find_transcript [⟨"en", true⟩, ⟨"en", false⟩] l = some ⟨"en", false⟩ ∧
      ∀ j, j < i → ∀ lj, (["zh", "en"] : List String).get? j = some lj →
        find_transcript [⟨"en", true⟩, ⟨"en", false⟩] lj = none) ∧
    get_transcript_A [] ["en"] = .error .disabled :=
  ⟨(c8_caption_fallback [⟨"en", true⟩, ⟨"en", false⟩] ["zh", "en"]).2.1
      ⟨"en", false⟩ rfl rfl,
   (c8_caption_fallback [] ["en"]).2.2.2 rfl⟩

/-- Reading the decimal digit of `d < 10` gives back `d`. -/
theorem digitVal_digitChar : ∀ d, d < 10 → digitVal (digitChar d) = some d := by
  decide

/-- Every character produced by `natDigitsAux` is a decimal digit. -/
theorem natDigitsAux_digits :
    ∀ (fuel n : Nat), ∀ c ∈ natDigitsAux fuel n, ∃ d, d < 10 ∧ c = digitChar d := by
  intro fuel
  induction fuel with
  | zero => intro n c hc; simp [natDigitsAux] at hc
  | succ fuel ih =>
    intro n c hc
    simp only [natDigitsAux] at hc
    split at hc
    · next h =>
      simp at hc
      exact ⟨n, h, hc⟩
    · rcases List.mem_append.mp hc with hmem | hmem
      · exact ih _ c hmem
      · simp at hmem
        exact ⟨n % 10, Nat.mod_lt _ (by omega), hmem⟩

/-- `natDigitsAux` never returns the empty list when it has fuel. -/
theorem natDigitsAux_ne_nil (fuel n : Nat) (h : 0 < fuel) :
    natDigitsAux fuel n ≠ [] := by
  cases fuel with
  | zero => omega
  | succ fuel =>
    simp only [natDigitsAux]
    split
    · simp
    · simp

/-- Parsing the rendered digits of `n` accumulates onto `acc` exactly. -/
theorem parseNatAux_append (acc : Nat) (xs ys : List Char) :
    parseNatAux acc (xs ++ ys) =
      match parseNatAux acc xs with
      | some a => parseNatAux a ys
      | none => none := by
  induction xs generalizing acc with
  | nil => simp [parseNatAux]
  | cons c cs ih =>
    simp only [List.cons_append, parseNatAux]
    rcases digitVal c with _ | d <;> simp [ih]

/-- Parsing the digits of `n` rendered with sufficient fuel yields
`acc * 10 ^ (number of digits) + n`. -/
theorem parseNatAux_natDigitsAux :
    ∀ (fuel n acc : Nat), n < fuel →
      parseNatAux acc (natDigitsAux fuel n) =
        some (acc * 10 ^ (natDigitsAux fuel n).length + n) := by
  intro fuel
  induction fuel with
  | zero => intro n acc h; omega
  | succ fuel ih =>
    intro n acc h
    simp only [natDigitsAux]
    split
    · next hlt =>
      simp [parseNatAux, digitVal_digitChar n hlt]
    · next hge =>
      have h10 : 10 ≤ n := by omega
      have hdiv : n / 10 < fuel := by
        have : n / 10 < n := Nat.div_lt_self (by omega) (by omega)
        omega
      rw [parseNatAux_append]
      rw [ih (n / 10) acc hdiv]
      have hmod : n % 10 < 10 := Nat.mod_lt _ (by omega)
      simp only [parseNatAux, digitVal_digitChar _ hmod, List.length_append,
        List.length_singleton]
      congr 1
      have : n / 10 * 10 + n % 10 = n := by omega
      ring_nf
      omega

/-- Round trip of Python's decimal rendering through `int(...)`. -/
theorem parseNat_natDigits (n : Nat) : parseNat (natDigits n) = some n := by
  have hne := natDigitsAux_ne_nil (n + 1) n (by omega)
  have hval := parseNatAux_natDigitsAux (n + 1) n 0 (by omega)
  simp only [natDigits] at *
  rcases hd : natDigitsAux (n + 1) n with _ | ⟨c, cs⟩
  · exact absurd hd hne
  · rw [hd] at hval
    simp [parseNat, hval]

/-- Round trip of the zero-padded two-digit rendering. -/
theorem parseNat_pad2 (n : Nat) : parseNat (pad2 n) = some n := by
  simp only [pad2]
  split
  · next h =>
    have hval := parseNatAux_natDigitsAux (n + 1) n 0 (by omega)
    simp only [natDigits, parseNat, parseNatAux, digitVal]
    simpa [natDigits] using hval
  · exact parseNat_natDigits n

/-- Every character of `pad2 n` is a decimal digit. -/
theorem pad2_digits (n : Nat) : ∀ c ∈ pad2 n, ∃ d, d < 10 ∧ c = digitChar d := by
  intro c hc
  simp only [pad2] at hc
  split at hc
  · rcases List.mem_cons.mp hc with rfl | hmem
    · exact ⟨0, by omega, rfl⟩
    · exact natDigitsAux_digits _ _ c hmem
  · exact natDigitsAux_digits _ _ c hc

/-- `pad2` output is nonempty. -/
theorem pad2_ne_nil (n : Nat) : pad2 n ≠ [] := by
  simp only [pad2]
  split
  · simp
  · exact natDigitsAux_ne_nil _ _ (by omega)

/-- Splitting at an explicit colon after a colon-free block. -/
theorem splitOnColon_append (xs rest : List Char) (h : ∀ c ∈ xs, c ≠ ':') :
    splitOnColon (xs ++ ':' :: rest) = xs :: splitOnColon rest := by
  induction xs with
  | nil => simp [splitOnColon]
  | cons c cs ih =>
    have hc : c ≠ ':' := h c (by simp)
    have hcs : ∀ x ∈ cs, x ≠ ':' := fun x hx => h x (by simp [hx])
    simp only [List.cons_append, splitOnColon, if_neg hc, List.append_eq, ih hcs]

/-- A colon-free block splits into itself. -/
theorem splitOnColon_no_colon (xs : List Char) (h : ∀ c ∈ xs, c ≠ ':') :
    splitOnColon xs = [xs] := by
  induction xs with
  | nil => simp [splitOnColon]
  | cons c cs ih =>
    have hc : c ≠ ':' := h c (by simp)
    have hcs : ∀ x ∈ cs, x ≠ ':' := fun x hx => h x (by simp [hx])
    simp [splitOnColon, if_neg hc, ih hcs]

/-- A decimal digit character is neither a colon nor a `P`. -/
theorem digitChar_ne_colon_P : ∀ d, d < 10 → digitChar d ≠ ':' ∧ digitChar d ≠ 'P' := by
  decide

/-- No character of `pad2 n` is a colon, and none is `P`. -/
theorem pad2_no_colon (n : Nat) :
    (∀ c ∈ pad2 n, c ≠ ':') ∧ (∀ c ∈ pad2 n, c ≠ 'P') := by
  refine ⟨?_, ?_⟩
  · intro c hc
    obtain ⟨d, hd, rfl⟩ := pad2_digits n c hc
    exact (digitChar_ne_colon_P d hd).1
  · intro c hc
    obtain ⟨d, hd, rfl⟩ := pad2_digits n c hc
    exact (digitChar_ne_colon_P d hd).2

/-- C10: `format_duration` renders any number of seconds as
`HH:MM:SS` with minutes and seconds below 60, and `parse_duration`
maps the rendered string back to exactly the original count —
whatever the external ISO-8601 parser does on `PT...` strings. -/
theorem c10_duration_round_trip (isoParse : List Char → Option Nat) (n : Nat) :
    parse_duration isoParse (format_duration n) = some n ∧
    ∃ h m s, format_duration n = pad2 h ++ ':' :: pad2 m ++ ':' :: pad2 s ∧
      m < 60 ∧ s < 60 ∧ h * 3600 + m * 60 + s = n := by
  have hm60 : n % 3600 / 60 < 60 := by omega
  have hs60 : n % 60 < 60 := by omega
  have hsum : n / 3600 * 3600 + n % 3600 / 60 * 60 + n % 60 = n := by omega
  refine ⟨?_, n / 3600, n % 3600 / 60, n % 60, rfl, hm60, hs60, hsum⟩
  have hPT : (format_duration n).take 2 ≠ ['P', 'T'] := by
    rcases hp : pad2 (n / 3600) with _ | ⟨c, cs⟩
    · exact absurd hp (pad2_ne_nil _)
    · have hcP : c ≠ 'P' := (pad2_no_colon (n / 3600)).2 c (by simp [hp])
      simp only [format_duration, hp, List.cons_append, List.take]
      intro hcontra
      exact hcP (by injection hcontra)
  have hform : format_duration n =
      pad2 (n / 3600) ++ ':' :: (pad2 (n % 3600 / 60) ++ ':' :: pad2 (n % 60)) := by
    simp only [format_duration, List.append_assoc, List.cons_append]
  have hsplit : splitOnColon (format_duration n) =
      [pad2 (n / 3600), pad2 (n % 3600 / 60), pad2 (n % 60)] := by
    rw [hform, splitOnColon_append _ _ ((pad2_no_colon _).1),
      splitOnColon_append _ _ ((pad2_no_colon _).1),
      splitOnColon_no_colon _ ((pad2_no_colon _).1)]
  simp only [parse_duration, if_neg hPT, hsplit, parseNat_pad2,
    Option.bind_eq_bind, Option.some_bind]
  rw [hsum]

/-- Reading after writing one field. -/
theorem getField_setField (r : ExternalRecord) (f g : FieldId) (v : String) :
    getField (setField r f v) g = if g = f then v else getField r g := by
  cases f <;> cases g <;> simp [getField, setField]

/-- Every updatable field is in the column list. -/
theorem mem_allFields (f : FieldId) : f ∈ allFields := by
  cases f <;> simp [allFields]

/-- The column list has no duplicates. -/
theorem allFields_nodup : allFields.Nodup := by decide

/-- Applying the plan built over a duplicate-free field list writes the
planned fields and leaves the rest untouched. -/
theorem applyPlan_filter (loc : LocalRecord) (p : FieldId → Bool) :
    ∀ (fs : List FieldId) (r : ExternalRecord) (f : FieldId), fs.Nodup →
      getField (applyPlan r ((fs.filter p).map (fun g => (g, localValue loc g)))) f =
        if f ∈ fs ∧ p f then localValue loc f else getField r f := by
  intro fs
  induction fs with
  | nil =>
    intro r f _
    simp [applyPlan]
  | cons g fs ih =>
    intro r f hnodup
    obtain ⟨hg, hfs⟩ := List.nodup_cons.mp hnodup
    rcases hp : p g with _ | _
    · rw [List.filter_cons_of_neg (by simp [hp])]
      rw [ih r f hfs]
      rcases eq_or_ne f g with rfl | hne
      · simp [hg, hp]
      · simp [hne]
    · rw [List.filter_cons_of_pos (by simp [hp])]
      have ih2 := ih (setField r g (localValue loc g)) f hfs
      simp only [applyPlan] at ih2 ⊢
      simp only [List.map_cons, List.foldl_cons]
      rw [ih2]
      rcases eq_or_ne f g with rfl | hne
      · simp [hg, hp, getField_setField]
      · simp [hne, getField_setField]

/-- Reconciliation acts field-wise: a field ends up with the local value
exactly when the merge plan includes it, and keeps its previous value
otherwise. -/
theorem reconcile_getField (ext : ExternalRecord) (loc : LocalRecord)
    (f : FieldId) :
    getField (reconcile ext loc) f =
      if planIncludes ext f then localValue loc f else getField ext f := by
  have h := applyPlan_filter loc (planIncludes ext) allFields ext f allFields_nodup
  simp only [reconcile, computePlan]
  rw [h]
  simp [mem_allFields]

/-- C1 (spec-modelled): for every field other than the golden quotes,
reconciliation never overwrites a non-empty external value, and writes
the local value exactly when the external field was empty. -/
theorem c1_merge_only_if_empty (ext : ExternalRecord) (loc : LocalRecord)
    (f : FieldId) (hf : f ≠ .quotes) :
    (getField ext f ≠ "" → getField (reconcile ext loc) f = getField ext f) ∧
    (getField ext f = "" → getField (reconcile ext loc) f = localValue loc f) := by
  have hplan : planIncludes ext f = (getField ext f == "") := by
    cases f <;> simp_all [planIncludes]
  rw [reconcile_getField, hplan]
  constructor
  · intro hne
    simp [hne]
  · intro he
    simp [he]

/-- Witness for C1: a populated title survives reconciliation
unchanged while an empty summary is filled from the local record. -/
theorem c1_witness :
    (FieldId.title ≠ FieldId.quotes) ∧
    getField (⟨"L", "P", "T", "A", "", "", "", "", ""⟩ : ExternalRecord) .title ≠ "" ∧
    getField (reconcile ⟨"L", "P", "T", "A", "", "", "", "", ""⟩
        ⟨"L", "p", "t", "a", "c", "u", "f", "s", ["q"]⟩) .title =
      getField (⟨"L", "P", "T", "A", "", "", "", "", ""⟩ : ExternalRecord) .title ∧
    getField (reconcile ⟨"L", "P", "T", "A", "", "", "", "", ""⟩
        ⟨"L", "p", "t", "a", "c", "u", "f", "s", ["q"]⟩) .summary =
      localValue ⟨"L", "p", "t", "a", "c", "u", "f", "s", ["q"]⟩ .summary :=
  ⟨by decide, by decide,
   (c1_merge_only_if_empty ⟨"L", "P", "T", "A", "", "", "", "", ""⟩
     ⟨"L", "p", "t", "a", "c", "u", "f", "s", ["q"]⟩ .title (by decide)).1 (by decide),
   (c1_merge_only_if_empty ⟨"L", "P", "T", "A", "", "", "", "", ""⟩
     ⟨"L", "p", "t", "a", "c", "u", "f", "s", ["q"]⟩ .summary (by decide)).2 rfl⟩

/-- C4 (spec-modelled): the golden-quotes rule — an empty quotes cell
is populated with the freshly numbered list, a non-empty cell without
a leading `digit.` ordinal is overwritten with that list, and a cell
that already carries numbering is left exactly as it was. -/
theorem c4_quotes_renumbering (ext : ExternalRecord) (loc : LocalRecord) :
    (getField ext .quotes = "" →
      getField (reconcile ext loc) .quotes = renumber loc.quotesList) ∧
    (getField ext .quotes ≠ "" → hasNumbering (getField ext .quotes) = false →
      getField (reconcile ext loc) .quotes = renumber loc.quotesList) ∧
    (hasNumbering (getField ext .quotes) = true →
      getField (reconcile ext loc) .quotes = getField ext .quotes) := by
  rw [reconcile_getField]
  refine ⟨?_, ?_, ?_⟩
  · intro he
    simp [planIncludes, he, localValue]
  · intro hne hnum
    simp [planIncludes, hnum, localValue]
  · intro hnum
    have hne : getField ext .quotes ≠ "" := by
      intro he
      rw [he] at hnum
      simp [hasNumbering] at hnum
    simp [planIncludes, hnum, hne]

/-- Witness for C4: the unnumbered existing value
`"insight one; insight two"` is overwritten with the numbered list
derived from the local quotes, while a value already starting with
`"1."` is untouched. -/
theorem c4_witness :
    getField (reconcile ⟨"L", "P", "T", "A", "C", "U", "F", "S", "insight one; insight two"⟩
        ⟨"L", "p", "t", "a", "c", "u", "f", "s", ["金句甲", "金句乙"]⟩) .quotes =
      renumber ["金句甲", "金句乙"] ∧
    renumber ["金句甲", "金句乙"] = "1. 金句甲\n2. 金句乙" ∧
    getField (reconcile ⟨"L", "P", "T", "A", "C", "U", "F", "S", "1. old quote"⟩
        ⟨"L", "p", "t", "a", "c", "u", "f", "s", ["金句甲", "金句乙"]⟩) .quotes =
      "1. old quote" :=
  ⟨(c4_quotes_renumbering ⟨"L", "P", "T", "A", "C", "U", "F", "S", "insight one; insight two"⟩
     ⟨"L", "p", "t", "a", "c", "u", "f", "s", ["金句甲", "金句乙"]⟩).2.1 (by decide) (by decide),
   by decide,
   (c4_quotes_renumbering ⟨"L", "P", "T", "A", "C", "U", "F", "S", "1. old quote"⟩
     ⟨"L", "p", "t", "a", "c", "u", "f", "s", ["金句甲", "金句乙"]⟩).2.2 (by decide)⟩

end Curator
